import Mathlib

/-!
Shallow embedding, in Lean, of the risk-scoring data model of the Rust
repository under verification (`src/models/model_output.rs`,
`src/models/risk_assessment.rs`, `src/models/factor_analysis.rs`,
`src/models/risk_model.rs`), together with theorems settling the claims
about tier classification, factor ranking, category importance,
model validation, assessment expiry and output immutability.

Modelling conventions:
* Rust `f64` values are modelled by `FV`: an exact rational, NaN, or a
  signed infinity.  Rounding of `f64` arithmetic is not modelled; the
  claims under consideration concern threshold comparisons whose outcome
  agrees between `f64` and exact rational arithmetic at the inputs
  involved.  IEEE-754 comparison semantics (every comparison involving a
  NaN is false) are modelled faithfully.
* `HashMap<String, V>` is modelled as an association list
  `List (String × V)` keyed by first insertion; the sums and
  normalisations the claims are about are independent of iteration order.
* `serde_json::Value` is modelled by the inductive `JsonVal`.
* `DateTime<Utc>` is modelled as an integer timestamp in milliseconds;
  `chrono::Duration::days d` is `d * 86400000` milliseconds.
* Nondeterministic inputs (`Uuid::new_v4()`, `Utc::now()`) are passed to
  the embedded constructors as explicit parameters.
* `Vec::sort_by` is a stable comparison sort and is modelled by
  `List.mergeSort` (also stable) with the same comparator.  The Rust
  comparator in `top_factors` unwraps `partial_cmp`, which panics exactly
  when one of the two compared keys is NaN; a comparison sort invokes its
  comparator on every element of a list of length at least two, and on no
  element of a shorter list, so the sort panics exactly when the list has
  at least two elements and some key is NaN.  A panicking call is
  modelled as `none`.
-/

/-- Model of a Rust `f64` value: an exact rational, NaN, or a signed
infinity (`inf true` is `+∞`, `inf false` is `-∞`). -/
inductive FV where
  | fin (q : ℚ)
  | nan
  | inf (pos : Bool)
deriving DecidableEq

/-- Whether the value is NaN. -/
def FV.isNan : FV → Bool
  | .nan => true
  | _ => false

/-- Whether the value is finite (neither NaN nor infinite). -/
def FV.isFin : FV → Bool
  | .fin _ => true
  | _ => false

/-- The rational carried by a finite value (junk `0` otherwise). -/
def FV.toQ : FV → ℚ
  | .fin q => q
  | _ => 0

/-- IEEE `<`: false whenever an operand is NaN. -/
def FV.lt : FV → FV → Bool
  | .nan, _ => false
  | _, .nan => false
  | .fin a, .fin b => decide (a < b)
  | .inf p, .fin _ => !p
  | .fin _, .inf p => p
  | .inf p, .inf q => !p && q

/-- IEEE `<=`: false whenever an operand is NaN. -/
def FV.le : FV → FV → Bool
  | .nan, _ => false
  | _, .nan => false
  | .fin a, .fin b => decide (a ≤ b)
  | .inf p, .fin _ => !p
  | .fin _, .inf p => p
  | .inf p, .inf q => !p || q

/-- IEEE addition (exact on finite operands; NaN absorbing; infinities of
opposite sign give NaN). -/
def FV.add : FV → FV → FV
  | .nan, _ => .nan
  | _, .nan => .nan
  | .fin a, .fin b => .fin (a + b)
  | .inf p, .fin _ => .inf p
  | .fin _, .inf p => .inf p
  | .inf p, .inf q => if p = q then .inf p else .nan

/-- IEEE division (exact on finite operands; `0/0` and `∞/∞` give NaN;
division of a nonzero finite by zero gives a signed infinity; the sign of
zero is not modelled). -/
def FV.div : FV → FV → FV
  | .nan, _ => .nan
  | _, .nan => .nan
  | .fin a, .fin b =>
      if b = 0 then (if a = 0 then .nan else .inf (decide (0 < a)))
      else .fin (a / b)
  | .inf p, .fin b => .inf (p == decide (0 ≤ b))
  | .fin _, .inf _ => .fin 0
  | .inf _, .inf _ => .nan

/-- IEEE absolute value. -/
def FV.abs : FV → FV
  | .fin q => .fin |q|
  | .nan => .nan
  | .inf _ => .inf true

/-- Risk tier enumeration (`RiskTier` in `model_output.rs`). -/
inductive RiskTier where
  | VeryLow
  | Low
  | Moderate
  | High
  | VeryHigh
deriving DecidableEq

/-- `RiskTier::from_score` (`model_output.rs`): divide the score by
`max_score` and compare the quotient against the fixed thresholds; the
guards fall through to `VeryHigh` when every comparison is false. -/
def RiskTier.from_score (score max_score : FV) : RiskTier :=
  let normalized := FV.div score max_score
  if FV.lt normalized (FV.fin 0.2) then RiskTier.VeryLow
  else if FV.lt normalized (FV.fin 0.4) then RiskTier.Low
  else if FV.lt normalized (FV.fin 0.6) then RiskTier.Moderate
  else if FV.lt normalized (FV.fin 0.8) then RiskTier.High
  else RiskTier.VeryHigh

/-- `RiskTier::as_str` (`model_output.rs`). -/
def RiskTier.as_str : RiskTier → String
  | .VeryLow => "Very Low"
  | .Low => "Low"
  | .Moderate => "Moderate"
  | .High => "High"
  | .VeryHigh => "Very High"

/-- Model of `serde_json::Value`. -/
inductive JsonVal where
  | null
  | bool (b : Bool)
  | num (q : ℚ)
  | str (s : String)
  | arr (xs : List JsonVal)
  | obj (fields : List (String × JsonVal))

/-- `ModelOutput` (`model_output.rs`). -/
structure ModelOutput where
  score : FV
  tier : String
  confidence : FV
  raw_outputs : List (String × JsonVal)
  execution_time : FV
  warnings : List String

/-- `ModelOutput::new` (`model_output.rs`): the tier is derived from the
score with a fixed `max_score` of `1000.0`. -/
def ModelOutput.new (score : FV) (confidence : FV)
    (raw_outputs : List (String × JsonVal)) : ModelOutput :=
  { score := score
    tier := (RiskTier.from_score score (FV.fin 1000)).as_str
    confidence := confidence
    raw_outputs := raw_outputs
    execution_time := FV.fin 0
    warnings := [] }

/-- `ModelOutput::add_warning` (`model_output.rs`): push onto `warnings`. -/
def ModelOutput.add_warning (mo : ModelOutput) (warning : String) : ModelOutput :=
  { mo with warnings := mo.warnings ++ [warning] }

/-- `ModelOutput::set_execution_time` (`model_output.rs`). -/
def ModelOutput.set_execution_time (mo : ModelOutput) (time_ms : FV) : ModelOutput :=
  { mo with execution_time := time_ms }

/-- `ModelOutput::has_warnings` (`model_output.rs`). -/
def ModelOutput.has_warnings (mo : ModelOutput) : Bool :=
  !mo.warnings.isEmpty

/-- `ImpactDirection` (`risk_assessment.rs`). -/
inductive ImpactDirection where
  | Negative
  | Positive
  | Neutral
deriving DecidableEq

/-- `Factor` (`risk_assessment.rs`). -/
structure Factor where
  name : String
  value : JsonVal
  impact : FV
  direction : ImpactDirection
  category : String
  description : String

/-- The comparator of `top_factors`
(`|a, b| b.impact.abs().partial_cmp(&a.impact.abs()).unwrap()`), read as a
"may come before" relation: `a` may precede `b` when the ordering of
`(b.impact.abs(), a.impact.abs())` is not `Greater`, i.e. when
`b.impact.abs() <= a.impact.abs()`.  Sorting by it orders the factors by
decreasing absolute impact. -/
def factorLe (a b : Factor) : Bool :=
  FV.le (FV.abs b.impact) (FV.abs a.impact)

/-- `RiskAssessment` (`risk_assessment.rs`). -/
structure RiskAssessment where
  assessment_id : String
  applicant_id : String
  model_id : String
  risk_score : FV
  risk_tier : String
  confidence : FV
  key_factors : List Factor
  assessment_date : ℤ
  expires_date : ℤ
  metadata : List (String × JsonVal)

/-- `RiskAssessment::new` (`risk_assessment.rs`); the generated UUID and
the wall-clock reading `Utc::now()` are passed explicitly. -/
def RiskAssessment.new (uuid : String) (now : ℤ)
    (applicant_id model_id : String) (risk_score : FV) (risk_tier : String)
    (confidence : FV) (key_factors : List Factor)
    (expires_days : ℤ) : RiskAssessment :=
  { assessment_id := uuid
    applicant_id := applicant_id
    model_id := model_id
    risk_score := risk_score
    risk_tier := risk_tier
    confidence := confidence
    key_factors := key_factors
    assessment_date := now
    expires_date := now + expires_days * 86400000
    metadata := [] }

/-- `RiskAssessment::is_expired` (`risk_assessment.rs`); the wall-clock
reading is passed explicitly. -/
def RiskAssessment.is_expired (ra : RiskAssessment) (now : ℤ) : Bool :=
  decide (now > ra.expires_date)

/-- `RiskAssessment::top_factors` (`risk_assessment.rs`): stable sort of
`key_factors` by decreasing absolute impact, then truncate to `n`.
`none` models the panic of the comparator unwrap (see the header). -/
def RiskAssessment.top_factors (ra : RiskAssessment) (n : Nat) :
    Option (List Factor) :=
  if 2 ≤ ra.key_factors.length ∧
      (ra.key_factors.any fun f => (FV.abs f.impact).isNan) = true then none
  else some ((ra.key_factors.mergeSort factorLe).take n)

/-- `CategoricalFactorAnalysis` (`factor_analysis.rs`). -/
structure CategoricalFactorAnalysis where
  name : String
  value : String
  impact : FV
  value_impacts : List (String × FV)

/-- `ContinuousFactorAnalysis` (`factor_analysis.rs`). -/
structure ContinuousFactorAnalysis where
  name : String
  value : FV
  impact : FV
  sensitivity : List (FV × FV)

/-- `FactorAnalysis` (`factor_analysis.rs`). -/
structure FactorAnalysis where
  analysis_id : String
  assessment_id : String
  factors : List Factor
  baseline : List (String × JsonVal)
  impact_values : List (String × FV)
  categorical_factors : List (String × CategoricalFactorAnalysis)
  continuous_factors : List (String × ContinuousFactorAnalysis)

/-- `FactorAnalysis::top_factors` (`factor_analysis.rs`): identical body
to `RiskAssessment::top_factors`, over `factors`. -/
def FactorAnalysis.top_factors (fa : FactorAnalysis) (n : Nat) :
    Option (List Factor) :=
  if 2 ≤ fa.factors.length ∧
      (fa.factors.any fun f => (FV.abs f.impact).isNan) = true then none
  else some ((fa.factors.mergeSort factorLe).take n)

/-- The `entry(..).or_insert(0.0); *current += v` step of
`category_importance`: add `v` to the entry at key `k`, inserting `0.0`
first when the key is absent. -/
def bumpEntry : List (String × FV) → String → FV → List (String × FV)
  | [], k, v => [(k, FV.add (FV.fin 0) v)]
  | (k2, v2) :: rest, k, v =>
      if k2 = k then (k2, FV.add v2 v) :: rest
      else (k2, v2) :: bumpEntry rest k v

/-- `importance.values().sum()` over the association-list model. -/
def valsSum (l : List (String × FV)) : FV :=
  (l.map fun p => p.2).foldl FV.add (FV.fin 0)

/-- `FactorAnalysis::category_importance` (`factor_analysis.rs`):
accumulate the absolute impact of each factor by category, then divide
every value by the total when the total is `> 0.0`. -/
def FactorAnalysis.category_importance (fa : FactorAnalysis) :
    List (String × FV) :=
  let importance := fa.factors.foldl
    (fun m f => bumpEntry m f.category (FV.abs f.impact)) []
  let total := valsSum importance
  if FV.lt (FV.fin 0) total then
    importance.map fun p => (p.1, FV.div p.2 total)
  else importance

/-- `ModelStatus` (`risk_model.rs`). -/
inductive ModelStatus where
  | Development
  | Testing
  | Active
  | Challenger
  | Deprecated
  | Archived
deriving DecidableEq

/-- `FeatureType` (`risk_model.rs`). -/
inductive FeatureType where
  | Numeric
  | Categorical
  | Boolean
  | DateTime
  | Text
deriving DecidableEq

/-- `FeatureDefinition` (`risk_model.rs`). -/
structure FeatureDefinition where
  name : String
  data_type : FeatureType
  required : Bool
  default_value : Option JsonVal
  range : Option (FV × FV)
  valid_values : Option (List String)
  description : String

/-- `OutputDefinition` (`risk_model.rs`). -/
structure OutputDefinition where
  name : String
  data_type : FeatureType
  range : Option (FV × FV)
  valid_values : Option (List String)
  description : String

/-- `RiskModel` (`risk_model.rs`). -/
structure RiskModel where
  model_id : String
  name : String
  version : String
  model_type : String
  target_segment : String
  parameters : List (String × JsonVal)
  metadata : List (String × JsonVal)
  created_date : ℤ
  modified_date : ℤ
  status : ModelStatus
  score_range : FV × FV
  features : List FeatureDefinition
  outputs : List OutputDefinition
  validation_metrics : List (String × FV)
  owner : String

/-- The duplicate-detection loop of the validators: walk the names with a
set of the names seen so far, returning the first name whose insertion
into the set fails. -/
def findDup (seen : List String) : List String → Option String
  | [] => none
  | n :: ns => if n ∈ seen then some n else findDup (n :: seen) ns

/-- `RiskModel::validate_features` (`risk_model.rs`). -/
def RiskModel.validate_features (m : RiskModel) : Except String Unit :=
  if m.features.isEmpty then
    Except.error "Model must have at least one feature"
  else
    match findDup [] (m.features.map fun f => f.name) with
    | some n => Except.error ("Duplicate feature name: " ++ n)
    | none => Except.ok ()

/-- `RiskModel::validate_outputs` (`risk_model.rs`). -/
def RiskModel.validate_outputs (m : RiskModel) : Except String Unit :=
  if m.outputs.isEmpty then
    Except.error "Model must have at least one output"
  else
    match findDup [] (m.outputs.map fun o => o.name) with
    | some n => Except.error ("Duplicate output name: " ++ n)
    | none =>
        if m.outputs.any fun o => o.name == "risk_score" then Except.ok ()
        else Except.error "Model must have a risk_score output"

/-- `RiskModel::validate_score_range` (`risk_model.rs`): error when
`min >= max` under IEEE comparison. -/
def RiskModel.validate_score_range (m : RiskModel) : Except String Unit :=
  if FV.le m.score_range.2 m.score_range.1 then
    Except.error "Score minimum must be less than maximum"
  else Except.ok ()

/-- The tier classifier as the specification words it (spec section 4.3,
for comparison with the code's `RiskTier.from_score`): normalize the
score into `[0,1]` using both endpoints of `score_range`, clamping below
the minimum to `0` and above the maximum to `1`, then apply the tier
thresholds to the clamped value. -/
def classifyTierSpec (score : ℚ) (score_range : ℚ × ℚ) : RiskTier :=
  let n := (score - score_range.1) / (score_range.2 - score_range.1)
  let c := min 1 (max 0 n)
  if c < 0.2 then RiskTier.VeryLow
  else if c < 0.4 then RiskTier.Low
  else if c < 0.6 then RiskTier.Moderate
  else if c < 0.8 then RiskTier.High
  else RiskTier.VeryHigh

/-- Proof device (not source code): total extension of the IEEE order
`FV.le`, treating NaN as a least element.  It agrees with `FV.le`
whenever neither operand is NaN. -/
def FV.leTotal (a b : FV) : Bool :=
  if a.isNan then true else if b.isNan then false else FV.le a b

/-- Proof device (not source code): total extension of the `top_factors`
comparator `factorLe`; agrees with it on factors whose impact is not
NaN. -/
def factorLeT (a b : Factor) : Bool :=
  FV.leTotal (FV.abs b.impact) (FV.abs a.impact)

/-- Proof device: the rational sum of the values of an association list
of `FV` values (meaningful when all values are finite). -/
def valsQ (l : List (String × FV)) : ℚ :=
  (l.map fun p => p.2.toQ).sum

/-- Proof device: every value of the association list is finite and
nonnegative. -/
def AllFinNN (l : List (String × FV)) : Prop :=
  ∀ p ∈ l, 0 ≤ p.2.toQ ∧ p.2.isFin = true

/-- Concrete factor used by the claim-3 witness. -/
def facC3a : Factor :=
  { name := "credit_score", value := JsonVal.num 700, impact := FV.fin 0.5,
    direction := ImpactDirection.Negative, category := "credit",
    description := "credit score" }

/-- Concrete factor used by the claim-3 witness. -/
def facC3b : Factor :=
  { name := "dti", value := JsonVal.num 0.2, impact := FV.fin (-0.2),
    direction := ImpactDirection.Positive, category := "debt",
    description := "debt to income" }

/-- Concrete factor analysis used by the claim-3 witness. -/
def faC3 : FactorAnalysis :=
  { analysis_id := "an3", assessment_id := "as3", factors := [facC3a, facC3b],
    baseline := [], impact_values := [], categorical_factors := [],
    continuous_factors := [] }

/-- Concrete risk assessment used by the claim-3 witness. -/
def raC3 : RiskAssessment :=
  { assessment_id := "as3", applicant_id := "ap3", model_id := "m3",
    risk_score := FV.fin 500, risk_tier := "Moderate",
    confidence := FV.fin 0.9, key_factors := [facC3a, facC3b],
    assessment_date := 0, expires_date := 1, metadata := [] }

/-- Concrete factor analysis used by the claim-4 witness. -/
def faC4 : FactorAnalysis :=
  { analysis_id := "an4", assessment_id := "as4",
    factors :=
      [{ name := "credit_score", value := JsonVal.num 700,
         impact := FV.fin 0.3, direction := ImpactDirection.Negative,
         category := "credit", description := "credit score" },
       { name := "dti", value := JsonVal.num 0.2, impact := FV.fin (-0.1),
         direction := ImpactDirection.Positive, category := "debt",
         description := "debt to income" }],
    baseline := [], impact_values := [], categorical_factors := [],
    continuous_factors := [] }

/-- Concrete risk model used by the claim-5 witness. -/
def mC5 : RiskModel :=
  { model_id := "m5", name := "ref model", version := "1.0.0",
    model_type := "creditcard", target_segment := "retail",
    parameters := [], metadata := [], created_date := 0, modified_date := 0,
    status := ModelStatus.Active, score_range := (FV.fin 0, FV.fin 1000),
    features :=
      [{ name := "credit_score", data_type := FeatureType.Numeric,
         required := true, default_value := none, range := none,
         valid_values := none, description := "credit score" }],
    outputs :=
      [{ name := "risk_score", data_type := FeatureType.Numeric,
         range := none, valid_values := none, description := "score" }],
    validation_metrics := [], owner := "risk team" }

/-- Concrete factor analysis with NaN impacts, used in claim 9: sorting
its two factors must invoke the comparator on a NaN key. -/
def faC9n : FactorAnalysis :=
  { analysis_id := "an9", assessment_id := "as9",
    factors :=
      [{ name := "a", value := JsonVal.null, impact := FV.nan,
         direction := ImpactDirection.Neutral, category := "c",
         description := "a" },
       { name := "b", value := JsonVal.null, impact := FV.fin 0.1,
         direction := ImpactDirection.Neutral, category := "c",
         description := "b" }],
    baseline := [], impact_values := [], categorical_factors := [],
    continuous_factors := [] }

/-- Concrete risk assessment with NaN impacts, used in claim 9. -/
def raC9n : RiskAssessment :=
  { assessment_id := "as9", applicant_id := "ap9", model_id := "m9",
    risk_score := FV.fin 500, risk_tier := "Moderate",
    confidence := FV.fin 0.9,
    key_factors :=
      [{ name := "a", value := JsonVal.null, impact := FV.nan,
         direction := ImpactDirection.Neutral, category := "c",
         description := "a" },
       { name := "b", value := JsonVal.null, impact := FV.fin 0.1,
         direction := ImpactDirection.Neutral, category := "c",
         description := "b" }],
    assessment_date := 0, expires_date := 1, metadata := [] }

/-- Concrete NaN-free factor analysis used by the claim-9 witness. -/
def faC9w : FactorAnalysis :=
  { analysis_id := "an9w", assessment_id := "as9w",
    factors :=
      [{ name := "a", value := JsonVal.null, impact := FV.fin 0.4,
         direction := ImpactDirection.Negative, category := "c",
         description := "a" }],
    baseline := [], impact_values := [], categorical_factors := [],
    continuous_factors := [] }

/-- Absolute value preserves NaN-ness. -/
theorem FV.abs_isNan (v : FV) : (FV.abs v).isNan = v.isNan := by
  cases v <;> rfl

/-- A finite value carries its rational. -/
theorem FV.eq_fin_of_isFin {v : FV} (h : v.isFin = true) : v = FV.fin v.toQ := by
  cases v <;> simp_all [FV.isFin, FV.toQ]

/-- A finite value is not NaN. -/
theorem FV.isNan_of_isFin {v : FV} (h : v.isFin = true) : v.isNan = false := by
  cases v <;> simp_all [FV.isFin, FV.isNan]

/-- The IEEE order is transitive (vacuously so when a NaN is involved,
since both premises are then false). -/
theorem FV.le_trans3 : ∀ {a b c : FV}, FV.le a b = true →
    FV.le b c = true → FV.le a c = true
  | .nan, _, _, h1, _ => absurd h1 (by simp [FV.le])
  | .fin _, .nan, _, h1, _ => absurd h1 (by simp [FV.le])
  | .inf _, .nan, _, h1, _ => absurd h1 (by simp [FV.le])
  | .fin _, .fin _, .nan, _, h2 => absurd h2 (by simp [FV.le])
  | .fin _, .inf _, .nan, _, h2 => absurd h2 (by simp [FV.le])
  | .inf _, .fin _, .nan, _, h2 => absurd h2 (by simp [FV.le])
  | .inf _, .inf _, .nan, _, h2 => absurd h2 (by simp [FV.le])
  | .fin x, .fin y, .fin z, h1, h2 => by
      simp only [FV.le, decide_eq_true_eq] at h1 h2 ⊢
      exact le_trans h1 h2
  | .fin _, .fin _, .inf _, _, h2 => h2
  | .fin _, .inf q, .fin _, h1, h2 => by
      simp only [FV.le] at h1 h2 ⊢
      rw [h1] at h2
      simp at h2
  | .fin _, .inf q, .inf r, h1, h2 => by
      simp only [FV.le] at h1 h2 ⊢
      rw [h1] at h2
      simpa using h2
  | .inf _, .fin _, .fin _, h1, _ => h1
  | .inf p, .fin _, .inf r, h1, h2 => by
      simp only [FV.le] at h1 h2 ⊢
      simp [h1]
  | .inf p, .inf q, .fin _, h1, h2 => by
      simp only [FV.le] at h1 h2 ⊢
      cases p <;> cases q <;> simp_all
  | .inf p, .inf q, .inf r, h1, h2 => by
      simp only [FV.le] at h1 h2 ⊢
      cases p <;> cases q <;> cases r <;> simp_all

/-- The IEEE order is total on non-NaN values. -/
theorem FV.le_total_nonNan : ∀ {a b : FV}, a.isNan = false →
    b.isNan = false → (FV.le a b || FV.le b a) = true
  | .nan, _, ha, _ => absurd ha (by simp [FV.isNan])
  | .fin _, .nan, _, hb => absurd hb (by simp [FV.isNan])
  | .inf _, .nan, _, hb => absurd hb (by simp [FV.isNan])
  | .fin x, .fin y, _, _ => by
      simp only [FV.le]
      rcases le_total x y with h | h <;> simp [h]
  | .fin _, .inf p, _, _ => by
      simp only [FV.le]
      cases p <;> simp
  | .inf p, .fin _, _, _ => by
      simp only [FV.le]
      cases p <;> simp
  | .inf p, .inf q, _, _ => by
      simp only [FV.le]
      cases p <;> cases q <;> simp

/-- The totalised order is reflexive. -/
theorem FV.leTotal_refl (a : FV) : FV.leTotal a a = true := by
  cases a with
  | fin q => simp [FV.leTotal, FV.isNan, FV.le]
  | nan => rfl
  | inf p => cases p <;> rfl

/-- The totalised order is transitive. -/
theorem FV.leTotal_trans3 {a b c : FV} (h1 : FV.leTotal a b = true)
    (h2 : FV.leTotal b c = true) : FV.leTotal a c = true := by
  unfold FV.leTotal at *
  split_ifs at * <;> simp_all
  exact FV.le_trans3 h1 h2

/-- The totalised order is total. -/
theorem FV.leTotal_total (a b : FV) :
    (FV.leTotal a b || FV.leTotal b a) = true := by
  by_cases ha : a.isNan = true
  · simp [FV.leTotal, ha]
  · by_cases hb : b.isNan = true
    · simp [FV.leTotal, ha, hb]
    · have ha2 : a.isNan = false := by simpa using ha
      have hb2 : b.isNan = false := by simpa using hb
      simp only [FV.leTotal, ha2, hb2, Bool.false_eq_true, if_false]
      exact FV.le_total_nonNan ha2 hb2

/-- On non-NaN values the totalised order agrees with the IEEE order. -/
theorem FV.leTotal_eq_le {a b : FV} (ha : a.isNan = false)
    (hb : b.isNan = false) : FV.leTotal a b = FV.le a b := by
  simp [FV.leTotal, ha, hb]

/-- The totalised comparator of the factor sort is transitive. -/
theorem factorLeT_trans : ∀ (a b c : Factor), factorLeT a b = true →
    factorLeT b c = true → factorLeT a c = true := by
  intro a b c h1 h2
  unfold factorLeT at *
  exact FV.leTotal_trans3 h2 h1

/-- The totalised comparator of the factor sort is total. -/
theorem factorLeT_total : ∀ (a b : Factor),
    (factorLeT a b || factorLeT b a) = true := by
  intro a b
  unfold factorLeT
  exact FV.leTotal_total _ _

/-- The stable sort of `top_factors`, on a list whose impacts are not
NaN: it is a permutation of the input, it is sorted by decreasing
absolute impact, and elements of any given absolute impact keep their
input order (stability, stated through `filter`). -/
theorem mergeSort_factorLe_spec (l : List Factor)
    (h : ∀ f ∈ l, f.impact.isNan = false) :
    (l.mergeSort factorLe).Perm l ∧
    (l.mergeSort factorLe).Pairwise (fun a b => factorLe a b = true) ∧
    ∀ q : FV, (l.mergeSort factorLe).filter
        (fun f => decide (FV.abs f.impact = q)) =
      l.filter (fun f => decide (FV.abs f.impact = q)) := by
  have hkey : ∀ f ∈ l, (FV.abs f.impact).isNan = false := by
    intro f hf
    rw [FV.abs_isNan]
    exact h f hf
  have heq : l.mergeSort factorLe = l.mergeSort factorLeT := by
    have hagree : ∀ a ∈ l, ∀ b ∈ l, factorLe a b = factorLeT (id a) (id b) := by
      intro a ha b hb
      simp only [id_eq]
      unfold factorLe factorLeT
      exact (FV.leTotal_eq_le (hkey b hb) (hkey a ha)).symm
    have hm := List.map_mergeSort (f := id) hagree
    simpa using hm
  refine ⟨?_, ?_, ?_⟩
  · rw [heq]
    exact List.mergeSort_perm l factorLeT
  · rw [heq]
    have hp := List.sorted_mergeSort factorLeT_trans factorLeT_total l
    refine hp.imp_of_mem ?_
    intro a b ha hb hab
    have ha2 : a ∈ l := List.mem_mergeSort.mp ha
    have hb2 : b ∈ l := List.mem_mergeSort.mp hb
    unfold factorLe
    unfold factorLeT at hab
    rw [← FV.leTotal_eq_le (hkey b hb2) (hkey a ha2)]
    exact hab
  · intro q
    rw [heq]
    set p : Factor → Bool := fun f => decide (FV.abs f.impact = q) with hpdef
    have hA1 : (l.filter p).Sublist l := List.filter_sublist l
    have hA2 : (l.filter p).Pairwise (fun a b => factorLeT a b = true) := by
      refine List.pairwise_of_forall_mem_list ?_
      intro a ha b hb
      have ha2 : FV.abs a.impact = q :=
        of_decide_eq_true (List.mem_filter.mp ha).2
      have hb2 : FV.abs b.impact = q :=
        of_decide_eq_true (List.mem_filter.mp hb).2
      unfold factorLeT
      rw [ha2, hb2]
      exact FV.leTotal_refl q
    have hA3 : (l.filter p).Sublist (l.mergeSort factorLeT) :=
      List.sublist_mergeSort factorLeT_trans factorLeT_total hA2 hA1
    have hA4 : (l.filter p).filter p = l.filter p :=
      List.filter_eq_self.mpr fun a ha => (List.mem_filter.mp ha).2
    have hA5 : (l.filter p).Sublist ((l.mergeSort factorLeT).filter p) := by
      rw [← hA4]
      exact List.Sublist.filter p hA3
    have hperm : ((l.mergeSort factorLeT).filter p).Perm (l.filter p) :=
      (List.mergeSort_perm l factorLeT).filter p
    exact (hA5.eq_of_length hperm.length_eq.symm).symm

/-- When no impact is NaN, the `top_factors` comparator never panics. -/
theorem topFactors_no_panic (l : List Factor)
    (h : ∀ f ∈ l, f.impact.isNan = false) :
    ¬(2 ≤ l.length ∧ (l.any fun f => (FV.abs f.impact).isNan) = true) := by
  rintro ⟨-, hany⟩
  obtain ⟨f, hf, hnan⟩ := List.any_eq_true.mp hany
  rw [FV.abs_isNan, h f hf] at hnan
  exact Bool.false_ne_true hnan

/-- The duplicate-detection loop returns `none` exactly when the names
are pairwise distinct and none of them was already seen. -/
theorem findDup_eq_none_iff (l : List String) : ∀ (seen : List String),
    findDup seen l = none ↔ l.Nodup ∧ ∀ x ∈ l, x ∉ seen := by
  induction l with
  | nil => intro seen; simp [findDup]
  | cons n ns ih =>
    intro seen
    by_cases hmem : n ∈ seen
    · simp only [findDup, if_pos hmem]
      constructor
      · intro hc
        exact absurd hc (by simp)
      · rintro ⟨-, hall⟩
        exact absurd hmem (hall n (List.mem_cons_self n ns))
    · simp only [findDup, if_neg hmem]
      rw [ih (n :: seen)]
      constructor
      · rintro ⟨hnd, hall⟩
        refine ⟨List.nodup_cons.mpr
          ⟨fun hn => (hall n hn) (List.mem_cons_self n seen), hnd⟩, ?_⟩
        intro x hx
        rcases List.mem_cons.mp hx with rfl | hx2
        · exact hmem
        · intro hxs
          exact (hall x hx2) (List.mem_cons_of_mem n hxs)
      · rintro ⟨hnd2, hall⟩
        have hcons := List.nodup_cons.mp hnd2
        refine ⟨hcons.2, ?_⟩
        intro x hx hxs
        rcases List.mem_cons.mp hxs with rfl | hx3
        · exact hcons.1 hx
        · exact hall x (List.mem_cons_of_mem n hx) hx3

/-- A finite absolute value is the rational absolute value. -/
theorem FV.abs_of_isFin {v : FV} (h : v.isFin = true) :
    FV.abs v = FV.fin |v.toQ| := by
  cases v <;> simp_all [FV.isFin, FV.abs, FV.toQ]

/-- `bumpEntry` with a nonnegative finite increment keeps all values
finite and nonnegative and raises the value total by the increment. -/
theorem bumpEntry_spec (k : String) (v : ℚ) (hv : 0 ≤ v) :
    ∀ (m : List (String × FV)), AllFinNN m →
    AllFinNN (bumpEntry m k (FV.fin v)) ∧
    valsQ (bumpEntry m k (FV.fin v)) = valsQ m + v := by
  intro m
  induction m with
  | nil =>
    intro _
    constructor
    · intro p hp
      simp only [bumpEntry, List.mem_singleton] at hp
      subst hp
      simpa [FV.add, FV.toQ, FV.isFin] using hv
    · simp [bumpEntry, valsQ, FV.add, FV.toQ]
  | cons hd tl ih =>
    obtain ⟨k2, v2⟩ := hd
    intro hm
    have hhd := hm (k2, v2) (List.mem_cons_self (k2, v2) tl)
    have htl : AllFinNN tl := fun p hp => hm p (List.mem_cons_of_mem (k2, v2) hp)
    by_cases hk : k2 = k
    · obtain ⟨qv, hq⟩ : ∃ q : ℚ, v2 = FV.fin q :=
        ⟨v2.toQ, FV.eq_fin_of_isFin hhd.2⟩
      subst hq
      have hq0 : 0 ≤ qv := by simpa [FV.toQ] using hhd.1
      constructor
      · intro p hp
        simp only [bumpEntry, if_pos hk, List.mem_cons] at hp
        rcases hp with rfl | hp2
        · constructor
          · simpa [FV.add, FV.toQ] using add_nonneg hq0 hv
          · simp [FV.add, FV.isFin]
        · exact htl p hp2
      · have hadd : FV.add (FV.fin qv) (FV.fin v) = FV.fin (qv + v) := rfl
        simp only [bumpEntry, if_pos hk, valsQ, List.map_cons, List.sum_cons, hadd]
        rw [show (FV.fin (qv + v)).toQ = qv + v from rfl,
          show ((k2, FV.fin qv) : String × FV).2.toQ = qv from rfl]
        ring
    · constructor
      · intro p hp
        simp only [bumpEntry, if_neg hk, List.mem_cons] at hp
        rcases hp with rfl | hp2
        · exact hhd
        · exact (ih htl).1 p hp2
      · simp only [bumpEntry, if_neg hk, valsQ, List.map_cons, List.sum_cons]
        have h3 : ((bumpEntry tl k (FV.fin v)).map fun p => p.2.toQ).sum
            = (tl.map fun p => p.2.toQ).sum + v := by
          simpa [valsQ] using (ih htl).2
        rw [h3]
        ring

/-- Folding the accumulation step of `category_importance` over factors
with finite impacts keeps all values finite and nonnegative and raises
the value total by the sum of the absolute impacts. -/
theorem foldBump_spec (fs : List Factor) :
    ∀ (m : List (String × FV)), (∀ f ∈ fs, f.impact.isFin = true) →
    AllFinNN m →
    AllFinNN (fs.foldl (fun m2 f => bumpEntry m2 f.category (FV.abs f.impact)) m) ∧
    valsQ (fs.foldl (fun m2 f => bumpEntry m2 f.category (FV.abs f.impact)) m) =
      valsQ m + (fs.map fun f => |f.impact.toQ|).sum := by
  induction fs with
  | nil =>
    intro m _ hm
    simpa using hm
  | cons f fs2 ih =>
    intro m hfs hm
    have hf : f.impact.isFin = true := hfs f (List.mem_cons_self f fs2)
    have habs : FV.abs f.impact = FV.fin |f.impact.toQ| := FV.abs_of_isFin hf
    have hb := bumpEntry_spec f.category |f.impact.toQ| (abs_nonneg _) m hm
    rw [List.foldl_cons, habs]
    obtain ⟨ih1, ih2⟩ := ih (bumpEntry m f.category (FV.fin |f.impact.toQ|))
      (fun g hg => hfs g (List.mem_cons_of_mem f hg)) hb.1
    refine ⟨ih1, ?_⟩
    rw [ih2, hb.2]
    simp only [List.map_cons, List.sum_cons]
    ring

/-- Summing finitely many finite values with `FV.add` is the rational
sum, for any finite initial accumulator. -/
theorem foldAdd_fin (l : List (String × FV)) :
    (∀ p ∈ l, p.2.isFin = true) → ∀ (q : ℚ),
    (l.map fun p => p.2).foldl FV.add (FV.fin q) = FV.fin (q + valsQ l) := by
  induction l with
  | nil =>
    intro _ q
    simp [valsQ]
  | cons hd tl ih =>
    intro h q
    have hfin : hd.2 = FV.fin hd.2.toQ :=
      FV.eq_fin_of_isFin (h hd (List.mem_cons_self hd tl))
    rw [List.map_cons, List.foldl_cons, hfin]
    rw [show FV.add (FV.fin q) (FV.fin hd.2.toQ) = FV.fin (q + hd.2.toQ) from rfl]
    rw [ih (fun p hp => h p (List.mem_cons_of_mem hd hp)) (q + hd.2.toQ)]
    have hq2 : valsQ (hd :: tl) = hd.2.toQ + valsQ tl := by
      simp [valsQ]
    rw [hq2]
    exact congrArg FV.fin (by ring)

/-- `values().sum()` of an all-finite association list is the rational
value total. -/
theorem valsSum_eq_fin (l : List (String × FV))
    (h : ∀ p ∈ l, p.2.isFin = true) : valsSum l = FV.fin (valsQ l) := by
  have := foldAdd_fin l h 0
  simpa [valsSum] using this

/-- Dividing every value of an all-finite association list by a nonzero
rational divides the value total. -/
theorem valsQ_map_div (l : List (String × FV)) (t : ℚ) (ht : t ≠ 0)
    (h : ∀ p ∈ l, p.2.isFin = true) :
    valsQ (l.map fun p => (p.1, FV.div p.2 (FV.fin t))) = valsQ l / t := by
  induction l with
  | nil => simp [valsQ]
  | cons hd tl ih =>
    have hhd : hd.2 = FV.fin hd.2.toQ :=
      FV.eq_fin_of_isFin (h hd (List.mem_cons_self hd tl))
    have hdiv : FV.div hd.2 (FV.fin t) = FV.fin (hd.2.toQ / t) := by
      rw [hhd]
      simp [FV.div, ht, FV.toQ]
    simp only [valsQ, List.map_cons, List.sum_cons] at *
    rw [ih (fun p hp => h p (List.mem_cons_of_mem hd hp)), hdiv]
    simp only [FV.toQ]
    ring

/-- On finite inputs with a nonzero divisor, `from_score` is the
threshold cascade on the rational quotient. -/
theorem from_score_fin_eq (s m : ℚ) (hm : m ≠ 0) :
    RiskTier.from_score (FV.fin s) (FV.fin m) =
      (if s / m < 0.2 then RiskTier.VeryLow
       else if s / m < 0.4 then RiskTier.Low
       else if s / m < 0.6 then RiskTier.Moderate
       else if s / m < 0.8 then RiskTier.High
       else RiskTier.VeryHigh) := by
  have hdiv : FV.div (FV.fin s) (FV.fin m) = FV.fin (s / m) := by
    simp [FV.div, hm]
  simp only [RiskTier.from_score, hdiv, FV.lt, decide_eq_true_eq]

/-- Claim C1: `RiskTier.from_score` maps the normalized score `s / m` to
a tier by the thresholds `<0.2` VeryLow, `<0.4` Low, `<0.6` Moderate,
`<0.8` High, else VeryHigh, with boundaries half-open on the lower side;
in particular for score range `(0, 1000)`: `199.999` yields VeryLow,
`200` Low, `399.999` Low, `400` Moderate, `799.999` High, `800`
VeryHigh. -/
theorem c1_tier_thresholds (s m : ℚ) (hm : m ≠ 0) :
    (s / m < 0.2 → RiskTier.from_score (FV.fin s) (FV.fin m) = RiskTier.VeryLow) ∧
    (0.2 ≤ s / m → s / m < 0.4 →
      RiskTier.from_score (FV.fin s) (FV.fin m) = RiskTier.Low) ∧
    (0.4 ≤ s / m → s / m < 0.6 →
      RiskTier.from_score (FV.fin s) (FV.fin m) = RiskTier.Moderate) ∧
    (0.6 ≤ s / m → s / m < 0.8 →
      RiskTier.from_score (FV.fin s) (FV.fin m) = RiskTier.High) ∧
    (0.8 ≤ s / m →
      RiskTier.from_score (FV.fin s) (FV.fin m) = RiskTier.VeryHigh) ∧
    RiskTier.from_score (FV.fin 199.999) (FV.fin 1000) = RiskTier.VeryLow ∧
    RiskTier.from_score (FV.fin 200) (FV.fin 1000) = RiskTier.Low ∧
    RiskTier.from_score (FV.fin 399.999) (FV.fin 1000) = RiskTier.Low ∧
    RiskTier.from_score (FV.fin 400) (FV.fin 1000) = RiskTier.Moderate ∧
    RiskTier.from_score (FV.fin 799.999) (FV.fin 1000) = RiskTier.High ∧
    RiskTier.from_score (FV.fin 800) (FV.fin 1000) = RiskTier.VeryHigh := by
  refine ⟨?_, ?_, ?_, ?_, ?_, ?_, ?_, ?_, ?_, ?_, ?_⟩
  · intro h1
    rw [from_score_fin_eq s m hm, if_pos h1]
  · intro h1 h2
    rw [from_score_fin_eq s m hm, if_neg (not_lt.mpr h1), if_pos h2]
  · intro h1 h2
    rw [from_score_fin_eq s m hm, if_neg (by linarith), if_neg (by linarith),
      if_pos h2]
  · intro h1 h2
    rw [from_score_fin_eq s m hm, if_neg (by linarith), if_neg (by linarith),
      if_neg (by linarith), if_pos h2]
  · intro h1
    rw [from_score_fin_eq s m hm, if_neg (by linarith), if_neg (by linarith),
      if_neg (by linarith), if_neg (by linarith)]
  · rw [from_score_fin_eq 199.999 1000 (by norm_num)]
    norm_num
  · rw [from_score_fin_eq 200 1000 (by norm_num)]
    norm_num
  · rw [from_score_fin_eq 399.999 1000 (by norm_num)]
    norm_num
  · rw [from_score_fin_eq 400 1000 (by norm_num)]
    norm_num
  · rw [from_score_fin_eq 799.999 1000 (by norm_num)]
    norm_num
  · rw [from_score_fin_eq 800 1000 (by norm_num)]
    norm_num

/-- Witness for claim C1: the hypothesis holds at `m = 1000` and the
theorem classifies the score `200` as Low there. -/
theorem c1_tier_thresholds_witness :
    ((1000 : ℚ) ≠ 0) ∧
    ((0.2 : ℚ) ≤ 200 / 1000 → (200 : ℚ) / 1000 < 0.4 →
      RiskTier.from_score (FV.fin 200) (FV.fin 1000) = RiskTier.Low) :=
  ⟨by norm_num, (c1_tier_thresholds 200 1000 (by norm_num)).2.1⟩

/-- Claim C2 counterexample: the claim says the classifier normalizes
with both endpoints of the score range and clamps, but
`RiskTier.from_score` only receives and uses the maximum.  For the range
`(500, 1000)` (which satisfies `min < max`) and score `250`, the code
divides by the maximum and answers Low, while normalizing with both
endpoints and clamping answers VeryLow. -/
theorem c2_normalization_counterexample :
    ((500 : ℚ) < 1000) ∧
    RiskTier.from_score (FV.fin 250) (FV.fin 1000) ≠
      classifyTierSpec 250 (500, 1000) := by
  constructor
  · norm_num
  · have h1 : RiskTier.from_score (FV.fin 250) (FV.fin 1000) = RiskTier.Low := by
      rw [from_score_fin_eq 250 1000 (by norm_num)]
      norm_num
    have h2 : classifyTierSpec 250 (500, 1000) = RiskTier.VeryLow := by
      simp only [classifyTierSpec]
      norm_num
    rw [h1, h2]
    decide

/-- Claim C2, amended: `RiskTier.from_score` normalizes by dividing the
score by the maximum alone, ignoring the range minimum and performing no
clamping, and it never fails on out-of-range finite input; when the
range minimum is `0` (and the maximum is positive) the resulting tier
does equal the tier of the clamped normalized value. -/
theorem c2_normalization_amended (s m : ℚ) (hm : 0 < m) :
    RiskTier.from_score (FV.fin s) (FV.fin m) = classifyTierSpec s (0, m) := by
  have hm0 : m ≠ 0 := ne_of_gt hm
  rw [from_score_fin_eq s m hm0]
  simp only [classifyTierSpec, sub_zero]
  rcases lt_or_le (s / m) 0 with hneg | hpos
  · have hc : min 1 (max 0 (s / m)) = 0 := by
      rw [max_eq_left hneg.le]
      exact min_eq_right (by norm_num)
    rw [hc, if_pos (by linarith : s / m < 0.2), if_pos (by norm_num : (0 : ℚ) < 0.2)]
  · rcases le_or_lt (s / m) 1 with hle1 | hgt1
    · have hc : min 1 (max 0 (s / m)) = s / m := by
        rw [max_eq_right hpos]
        exact min_eq_right hle1
      rw [hc]
    · have hc : min 1 (max 0 (s / m)) = 1 := by
        rw [max_eq_right hpos]
        exact min_eq_left hgt1.le
      rw [hc, if_neg (by linarith : ¬s / m < 0.2),
        if_neg (by linarith : ¬s / m < 0.4), if_neg (by linarith : ¬s / m < 0.6),
        if_neg (by linarith : ¬s / m < 0.8)]
      norm_num

/-- Witness for the amended claim C2: at score `250` and maximum `1000`
the hypothesis holds and the tiers agree. -/
theorem c2_normalization_amended_witness :
    ((0 : ℚ) < 1000) ∧
    RiskTier.from_score (FV.fin 250) (FV.fin 1000) =
      classifyTierSpec 250 (0, 1000) :=
  ⟨by norm_num, c2_normalization_amended 250 1000 (by norm_num)⟩

/-- Claim C3: on factor lists whose impacts are comparable, both
`top_factors` methods return a prefix of length `min n (count)` of a
stable reordering of the stored factor list: a permutation sorted by
decreasing absolute impact in which factors of equal absolute impact
keep their order in the stored list (stated through `filter`), so the
result never has more than `n` entries even when `n` exceeds the factor
count. -/
theorem c3_top_factors_sorted (fa : FactorAnalysis) (ra : RiskAssessment)
    (n : ℕ)
    (hfa : ∀ f ∈ fa.factors, f.impact.isNan = false)
    (hra : ∀ f ∈ ra.key_factors, f.impact.isNan = false) :
    (∃ s : List Factor, fa.top_factors n = some (s.take n) ∧
      (s.take n).length = min n fa.factors.length ∧
      s.Perm fa.factors ∧
      s.Pairwise (fun a b => FV.le (FV.abs b.impact) (FV.abs a.impact) = true) ∧
      ∀ q : FV, s.filter (fun f => decide (FV.abs f.impact = q)) =
        fa.factors.filter fun f => decide (FV.abs f.impact = q)) ∧
    (∃ s : List Factor, ra.top_factors n = some (s.take n) ∧
      (s.take n).length = min n ra.key_factors.length ∧
      s.Perm ra.key_factors ∧
      s.Pairwise (fun a b => FV.le (FV.abs b.impact) (FV.abs a.impact) = true) ∧
      ∀ q : FV, s.filter (fun f => decide (FV.abs f.impact = q)) =
        ra.key_factors.filter fun f => decide (FV.abs f.impact = q)) := by
  constructor
  · obtain ⟨hperm, hsort, hfil⟩ := mergeSort_factorLe_spec fa.factors hfa
    refine ⟨fa.factors.mergeSort factorLe, ?_, ?_, hperm, ?_, hfil⟩
    · unfold FactorAnalysis.top_factors
      rw [if_neg (topFactors_no_panic fa.factors hfa)]
    · rw [List.length_take, List.length_mergeSort]
    · simpa [factorLe] using hsort
  · obtain ⟨hperm, hsort, hfil⟩ := mergeSort_factorLe_spec ra.key_factors hra
    refine ⟨ra.key_factors.mergeSort factorLe, ?_, ?_, hperm, ?_, hfil⟩
    · unfold RiskAssessment.top_factors
      rw [if_neg (topFactors_no_panic ra.key_factors hra)]
    · rw [List.length_take, List.length_mergeSort]
    · simpa [factorLe] using hsort

/-- Witness for claim C3: a factor analysis and an assessment with two
NaN-free factors each satisfy the hypotheses, and the theorem applies at
`n = 1`. -/
theorem c3_top_factors_sorted_witness :
    ((∀ f ∈ faC3.factors, f.impact.isNan = false) ∧
     (∀ f ∈ raC3.key_factors, f.impact.isNan = false)) ∧
    ((∃ s : List Factor, faC3.top_factors 1 = some (s.take 1) ∧
      (s.take 1).length = min 1 faC3.factors.length ∧
      s.Perm faC3.factors ∧
      s.Pairwise (fun a b => FV.le (FV.abs b.impact) (FV.abs a.impact) = true) ∧
      ∀ q : FV, s.filter (fun f => decide (FV.abs f.impact = q)) =
        faC3.factors.filter fun f => decide (FV.abs f.impact = q)) ∧
    (∃ s : List Factor, raC3.top_factors 1 = some (s.take 1) ∧
      (s.take 1).length = min 1 raC3.key_factors.length ∧
      s.Perm raC3.key_factors ∧
      s.Pairwise (fun a b => FV.le (FV.abs b.impact) (FV.abs a.impact) = true) ∧
      ∀ q : FV, s.filter (fun f => decide (FV.abs f.impact = q)) =
        raC3.key_factors.filter fun f => decide (FV.abs f.impact = q))) :=
  ⟨⟨by decide, by decide⟩,
    c3_top_factors_sorted faC3 raC3 1 (by decide) (by decide)⟩

/-- Claim C9: `top_factors` is total exactly under the precondition that
every impact is a non-NaN float: with comparable impacts the comparator
unwrap cannot fail and a result is returned, while on a concrete
two-factor input containing a NaN impact the comparison unwrap panics
(modelled as `none`) instead of returning a result. -/
theorem c9_top_factors_totality :
    (∀ (fa : FactorAnalysis) (n : ℕ),
      (∀ f ∈ fa.factors, f.impact.isNan = false) →
        ∃ r, fa.top_factors n = some r) ∧
    (∀ (ra : RiskAssessment) (n : ℕ),
      (∀ f ∈ ra.key_factors, f.impact.isNan = false) →
        ∃ r, ra.top_factors n = some r) ∧
    faC9n.top_factors 5 = none ∧
    raC9n.top_factors 5 = none := by
  refine ⟨?_, ?_, ?_, ?_⟩
  · intro fa n h
    refine ⟨(fa.factors.mergeSort factorLe).take n, ?_⟩
    unfold FactorAnalysis.top_factors
    rw [if_neg (topFactors_no_panic fa.factors h)]
  · intro ra n h
    refine ⟨(ra.key_factors.mergeSort factorLe).take n, ?_⟩
    unfold RiskAssessment.top_factors
    rw [if_neg (topFactors_no_panic ra.key_factors h)]
  · rfl
  · rfl

/-- Witness for claim C9: a single-factor NaN-free analysis satisfies
the precondition and `top_factors` returns a result on it. -/
theorem c9_top_factors_totality_witness :
    (∀ f ∈ faC9w.factors, f.impact.isNan = false) ∧
    (∃ r, faC9w.top_factors 3 = some r) :=
  ⟨by decide, c9_top_factors_totality.1 faC9w 3 (by decide)⟩

/-- Claim C4: for a factor analysis with finite impacts,
`category_importance` aggregates absolute impact by category and
normalizes: whenever the total absolute impact is strictly positive the
returned values sum to exactly `1` (the exact-rational counterpart of
"1.0 within floating tolerance"), every returned value is `0` when the
total absolute impact is zero, and the values are always finite, so no
division by zero occurs. -/
theorem c4_category_importance (fa : FactorAnalysis)
    (h : ∀ f ∈ fa.factors, f.impact.isFin = true) :
    (0 < (fa.factors.map fun f => |f.impact.toQ|).sum →
      valsSum fa.category_importance = FV.fin 1) ∧
    ((fa.factors.map fun f => |f.impact.toQ|).sum = 0 →
      ∀ p ∈ fa.category_importance, p.2 = FV.fin 0) ∧
    (∀ p ∈ fa.category_importance, p.2.isFin = true) := by
  have hnil : AllFinNN ([] : List (String × FV)) := by
    intro p hp
    simp at hp
  obtain ⟨himp1, himp2⟩ := foldBump_spec fa.factors [] h hnil
  set imp := fa.factors.foldl
    (fun m2 f => bumpEntry m2 f.category (FV.abs f.impact)) [] with himpdef
  set T := (fa.factors.map fun f => |f.impact.toQ|).sum with hTdef
  have himpQ : valsQ imp = T := by
    rw [himp2]
    simp [valsQ]
  have hfinvals : ∀ p ∈ imp, p.2.isFin = true := fun p hp => (himp1 p hp).2
  have htot : valsSum imp = FV.fin T := by
    rw [valsSum_eq_fin imp hfinvals, himpQ]
  have hci : fa.category_importance =
      (if FV.lt (FV.fin 0) (valsSum imp) then
        imp.map fun p => (p.1, FV.div p.2 (valsSum imp))
      else imp) := rfl
  refine ⟨?_, ?_, ?_⟩
  · intro hpos
    have hlt : FV.lt (FV.fin 0) (valsSum imp) = true := by
      rw [htot]
      simpa [FV.lt] using hpos
    rw [hci, if_pos hlt, htot]
    have hT0 : T ≠ 0 := ne_of_gt hpos
    rw [valsSum_eq_fin _ ?hfin]
    case hfin =>
      intro p hp
      obtain ⟨p2, hp2, hpeq⟩ := List.mem_map.mp hp
      have := FV.eq_fin_of_isFin (hfinvals p2 hp2)
      rw [← hpeq, this]
      simp [FV.div, hT0, FV.isFin]
    rw [valsQ_map_div imp T hT0 hfinvals, himpQ, div_self hT0]
  · intro hzero
    have hlt : FV.lt (FV.fin 0) (valsSum imp) = false := by
      rw [htot, hzero]
      simp [FV.lt]
    rw [hci, if_neg (by simp [hlt])]
    intro p hp
    have hfin := FV.eq_fin_of_isFin (hfinvals p hp)
    have hmem : p.2.toQ ∈ imp.map fun r => r.2.toQ :=
      List.mem_map.mpr ⟨p, hp, rfl⟩
    have hnn : ∀ x ∈ imp.map fun r => r.2.toQ, (0 : ℚ) ≤ x := by
      intro x hx
      obtain ⟨r, hr, rfl⟩ := List.mem_map.mp hx
      exact (himp1 r hr).1
    have hle : p.2.toQ ≤ (imp.map fun r => r.2.toQ).sum :=
      List.single_le_sum hnn _ hmem
    have hsum0 : (imp.map fun r => r.2.toQ).sum = 0 := by
      have hvq : valsQ imp = 0 := by rw [himpQ]; exact hzero
      simpa [valsQ] using hvq
    have hq0 : p.2.toQ = 0 := le_antisymm (hsum0 ▸ hle) (hnn _ hmem)
    rw [hfin, hq0]
  · intro p hp
    rw [hci] at hp
    by_cases hlt : FV.lt (FV.fin 0) (valsSum imp) = true
    · rw [if_pos hlt] at hp
      obtain ⟨p2, hp2, hpeq⟩ := List.mem_map.mp hp
      have hT0 : T ≠ 0 := by
        intro h0
        rw [htot, h0] at hlt
        simp [FV.lt] at hlt
      have := FV.eq_fin_of_isFin (hfinvals p2 hp2)
      rw [← hpeq, this]
      simp [htot, FV.div, hT0, FV.isFin]
    · rw [if_neg (by simpa using hlt)] at hp
      exact hfinvals p hp

/-- Witness for claim C4: a two-factor analysis over two categories with
impacts `0.3` and `-0.1` has finite impacts and positive total
`0.4`, so the theorem applies. -/
theorem c4_category_importance_witness :
    (∀ f ∈ faC4.factors, f.impact.isFin = true) ∧
    ((0 < (faC4.factors.map fun f => |f.impact.toQ|).sum →
      valsSum faC4.category_importance = FV.fin 1) ∧
    ((faC4.factors.map fun f => |f.impact.toQ|).sum = 0 →
      ∀ p ∈ faC4.category_importance, p.2 = FV.fin 0) ∧
    (∀ p ∈ faC4.category_importance, p.2.isFin = true)) :=
  ⟨by decide, c4_category_importance faC4 (by decide)⟩

/-- Claim C5: the three model validators succeed exactly when the model
definition is valid: `validate_features` errs iff the feature list is
empty or has a duplicate name, `validate_outputs` errs iff the output
list is empty, has a duplicate name, or lacks an output named
`risk_score`, and `validate_score_range` errs iff `min >= max` under
IEEE comparison, which on finite endpoints means the minimum is not
strictly below the maximum. -/
theorem c5_validators (m : RiskModel) :
    (m.validate_features = Except.ok () ↔
      m.features ≠ [] ∧ (m.features.map fun f => f.name).Nodup) ∧
    (m.validate_outputs = Except.ok () ↔
      m.outputs ≠ [] ∧ (m.outputs.map fun o => o.name).Nodup ∧
        "risk_score" ∈ m.outputs.map fun o => o.name) ∧
    (m.validate_score_range = Except.ok () ↔
      FV.le m.score_range.2 m.score_range.1 = false) ∧
    (∀ a b : ℚ, m.score_range = (FV.fin a, FV.fin b) →
      (m.validate_score_range = Except.ok () ↔ a < b)) := by
  refine ⟨?_, ?_, ?_, ?_⟩
  · unfold RiskModel.validate_features
    by_cases hemp : m.features.isEmpty = true
    · have hnil : m.features = [] := by simpa [List.isEmpty_iff] using hemp
      rw [if_pos hemp]
      simp [hnil]
    · have hne : m.features ≠ [] := by
        intro h0
        rw [h0] at hemp
        exact hemp rfl
      rw [if_neg hemp]
      cases hfd : findDup [] (m.features.map fun f => f.name) with
      | some d =>
        simp only [hfd]
        constructor
        · intro hc
          exact absurd hc (by simp)
        · rintro ⟨-, hnd⟩
          have h2 := (findDup_eq_none_iff _ []).mpr ⟨hnd, by simp⟩
          rw [hfd] at h2
          exact absurd h2 (by simp)
      | none =>
        simp only [hfd]
        simp [hne, ((findDup_eq_none_iff _ []).mp hfd).1]
  · unfold RiskModel.validate_outputs
    by_cases hemp : m.outputs.isEmpty = true
    · have hnil : m.outputs = [] := by simpa [List.isEmpty_iff] using hemp
      rw [if_pos hemp]
      simp [hnil]
    · have hne : m.outputs ≠ [] := by
        intro h0
        rw [h0] at hemp
        exact hemp rfl
      rw [if_neg hemp]
      cases hfd : findDup [] (m.outputs.map fun o => o.name) with
      | some d =>
        simp only [hfd]
        constructor
        · intro hc
          exact absurd hc (by simp)
        · rintro ⟨-, hnd, -⟩
          have h2 := (findDup_eq_none_iff _ []).mpr ⟨hnd, by simp⟩
          rw [hfd] at h2
          exact absurd h2 (by simp)
      | none =>
        simp only [hfd]
        have hnd := ((findDup_eq_none_iff _ []).mp hfd).1
        by_cases hrs : (m.outputs.any fun o => o.name == "risk_score") = true
        · rw [if_pos hrs]
          have hmem : "risk_score" ∈ m.outputs.map fun o => o.name := by
            obtain ⟨o, ho, heq⟩ := List.any_eq_true.mp hrs
            exact List.mem_map.mpr ⟨o, ho, by simpa using heq⟩
          simp [hne, hnd, hmem]
        · rw [if_neg hrs]
          constructor
          · intro hc
            exact absurd hc (by simp)
          · rintro ⟨-, -, hmem⟩
            obtain ⟨o, ho, heq⟩ := List.mem_map.mp hmem
            exact (hrs (List.any_eq_true.mpr ⟨o, ho, by simpa using heq⟩)).elim
  · unfold RiskModel.validate_score_range
    by_cases hle : FV.le m.score_range.2 m.score_range.1 = true
    · rw [if_pos hle]
      simp [hle]
    · rw [if_neg hle]
      rw [Bool.not_eq_true] at hle
      simp [hle]
  · intro a b hab
    unfold RiskModel.validate_score_range
    rw [hab]
    simp only [FV.le]
    rcases le_or_lt b a with hba | hba
    · rw [if_pos (by simpa using hba)]
      constructor
      · intro hc
        exact absurd hc (by simp)
      · intro hc
        exact absurd hc (not_lt.mpr hba)
    · rw [if_neg (by simpa using not_le.mpr hba)]
      simp [hba]

/-- Witness for claim C5: the reference model has the finite range
`(0, 1000)`, on which the score-range characterisation applies. -/
theorem c5_validators_witness :
    (mC5.score_range = (FV.fin 0, FV.fin 1000)) ∧
    (mC5.validate_score_range = Except.ok () ↔ (0 : ℚ) < 1000) :=
  ⟨rfl, (c5_validators mC5).2.2.2 0 1000 rfl⟩

/-- Claim C6 counterexample: with a zero-day validity window the
constructed assessment expires exactly at the assessment date, so the
claimed invariant `expires_date > assessment_date` fails for that
choice of `expires_days`. -/
theorem c6_expiry_counterexample :
    ¬ ((RiskAssessment.new "id0" 0 "ap0" "m0" (FV.fin 500) "Moderate"
        (FV.fin 1) [] 0).assessment_date <
      (RiskAssessment.new "id0" 0 "ap0" "m0" (FV.fin 500) "Moderate"
        (FV.fin 1) [] 0).expires_date) := by
  decide

/-- Claim C6, amended: for every strictly positive validity window
(`expires_days` at least one), the constructed assessment satisfies
`expires_date > assessment_date`, for every choice of the remaining
parameters. -/
theorem c6_expiry_amended (uuid : String) (now : ℤ) (aid mid : String)
    (rs : FV) (rt : String) (cf : FV) (kf : List Factor) (d : ℤ)
    (hd : 1 ≤ d) :
    (RiskAssessment.new uuid now aid mid rs rt cf kf d).assessment_date <
      (RiskAssessment.new uuid now aid mid rs rt cf kf d).expires_date := by
  show now < now + d * 86400000
  have hd2 : (0 : ℤ) < d := lt_of_lt_of_le zero_lt_one hd
  have hpos : (0 : ℤ) < d * 86400000 := mul_pos hd2 (by norm_num)
  linarith

/-- Witness for the amended claim C6: a thirty-day window. -/
theorem c6_expiry_amended_witness :
    ((1 : ℤ) ≤ 30) ∧
    (RiskAssessment.new "id6" 100 "ap6" "m6" (FV.fin 500) "Moderate"
        (FV.fin 1) [] 30).assessment_date <
      (RiskAssessment.new "id6" 100 "ap6" "m6" (FV.fin 500) "Moderate"
        (FV.fin 1) [] 30).expires_date :=
  ⟨by norm_num, c6_expiry_amended "id6" 100 "ap6" "m6" (FV.fin 500) "Moderate"
    (FV.fin 1) [] 30 (by norm_num)⟩

/-- Claim C7: `add_warning` changes only `warnings`, appending the given
warning after the earlier ones in order, and `set_execution_time`
changes only `execution_time`; in both cases `score`, `tier`,
`confidence` and `raw_outputs` (and the respectively untouched field)
are unchanged. -/
theorem c7_modeloutput_frame (mo : ModelOutput) (w : String) (t : FV) :
    ((mo.add_warning w).score = mo.score ∧
     (mo.add_warning w).tier = mo.tier ∧
     (mo.add_warning w).confidence = mo.confidence ∧
     (mo.add_warning w).raw_outputs = mo.raw_outputs ∧
     (mo.add_warning w).execution_time = mo.execution_time ∧
     (mo.add_warning w).warnings = mo.warnings ++ [w]) ∧
    ((mo.set_execution_time t).score = mo.score ∧
     (mo.set_execution_time t).tier = mo.tier ∧
     (mo.set_execution_time t).confidence = mo.confidence ∧
     (mo.set_execution_time t).raw_outputs = mo.raw_outputs ∧
     (mo.set_execution_time t).warnings = mo.warnings ∧
     (mo.set_execution_time t).execution_time = t) :=
  ⟨⟨rfl, rfl, rfl, rfl, rfl, rfl⟩, ⟨rfl, rfl, rfl, rfl, rfl, rfl⟩⟩

/-- Claim C8: `ModelOutput::new` derives the tier string from the score
with the fixed maximum `1000` (it receives no score range at all),
copies the other inputs, and initializes `warnings` to empty and
`execution_time` to `0`. -/
theorem c8_new_fixed_scale (score confidence : FV)
    (raws : List (String × JsonVal)) :
    (ModelOutput.new score confidence raws).tier =
      (RiskTier.from_score score (FV.fin 1000)).as_str ∧
    (ModelOutput.new score confidence raws).score = score ∧
    (ModelOutput.new score confidence raws).confidence = confidence ∧
    (ModelOutput.new score confidence raws).raw_outputs = raws ∧
    (ModelOutput.new score confidence raws).warnings = [] ∧
    (ModelOutput.new score confidence raws).execution_time = FV.fin 0 :=
  ⟨rfl, rfl, rfl, rfl, rfl, rfl⟩

/-- Claim C10: `RiskTier.from_score` is total and defaults to the
riskiest tier when the quotient is NaN: every threshold comparison is
then false and the match falls through to `VeryHigh`; in particular a
NaN score over `1000`, and score `0` over maximum `0`, both yield
`VeryHigh`. -/
theorem c10_from_score_nan :
    (∀ s m : FV, (FV.div s m).isNan = true →
      RiskTier.from_score s m = RiskTier.VeryHigh) ∧
    (FV.div FV.nan (FV.fin 1000)).isNan = true ∧
    RiskTier.from_score FV.nan (FV.fin 1000) = RiskTier.VeryHigh ∧
    (FV.div (FV.fin 0) (FV.fin 0)).isNan = true ∧
    RiskTier.from_score (FV.fin 0) (FV.fin 0) = RiskTier.VeryHigh := by
  refine ⟨?_, rfl, rfl, by decide, by decide⟩
  intro s m h
  have hd : FV.div s m = FV.nan := by
    cases hv : FV.div s m <;> simp_all [FV.isNan]
  simp [RiskTier.from_score, hd, FV.lt]

/-- Witness for claim C10: the NaN score over maximum `1000`. -/
theorem c10_from_score_nan_witness :
    (FV.div FV.nan (FV.fin 1000)).isNan = true ∧
    RiskTier.from_score FV.nan (FV.fin 1000) = RiskTier.VeryHigh :=
  ⟨rfl, c10_from_score_nan.1 FV.nan (FV.fin 1000) rfl⟩
